import Mathlib

/-!
Verification of the tree-consistency layer of the yrs_tree repository.

The handle layer (`Node` / `NodeApi` in src/src/node.rs) is embedded directly
from the source. The `Tree` backing component (`update_node`, `get_parent`,
`get_children`, the iterator) is not present under src/, so those parts are
modelled from the specification, with each such definition marked
`Modelled from the spec:` in its doc comment.
-/

namespace YrsTree

/-- The ID of a node in a tree: the distinguished `Root` variant or a
user-assigned string identifier.  Embeds `enum NodeId` from src/src/node.rs. -/
inductive NodeId where
  | Root : NodeId
  | Id : String → NodeId
deriving DecidableEq

/-- Embeds `impl fmt::Display for NodeId` (src/src/node.rs lines 24-31):
`Root` renders as the reserved literal, `Id(s)` renders as `s`. -/
def NodeId.render : NodeId → String
  | .Root => "<ROOT>"
  | .Id s => s

/-- Embeds `impl From<&str> for NodeId` (src/src/node.rs lines 42-49):
the reserved literal maps to `Root`, every other string to `Id`. -/
def NodeId.fromStr (s : String) : NodeId :=
  if s = "<ROOT>" then NodeId.Root else NodeId.Id s

/-- The typed error taxonomy.  `InvalidId`, `Cycle` and `InvalidTarget`
payloads are read off the constructor sites in src/src/node.rs; the
remaining variants are modelled from the spec (§7). -/
inductive TreeError where
  | InvalidId : String → TreeError
  | Cycle : NodeId → NodeId → TreeError
  | InvalidTarget : NodeId → TreeError
  | NotFound : NodeId → TreeError
  | IndexOutOfRange : Nat → Nat → TreeError
deriving DecidableEq

/-- First-match association-list lookup, the map primitive used by the
tree-state model. -/
def assocLookup {α : Type} : List (NodeId × α) → NodeId → Option α
  | [], _ => none
  | (k, v) :: rest, n => if k = n then some v else assocLookup rest n

/-- Overwrite-or-append update for the association-list map primitive. -/
def assocSet {α : Type} : List (NodeId × α) → NodeId → α → List (NodeId × α)
  | [], k, v => [(k, v)]
  | (k1, v1) :: rest, k, v =>
      if k1 = k then (k, v) :: rest else (k1, v1) :: assocSet rest k v

/-- Modelled from the spec: the backing store state visible to the tree layer
(§6) — a mapping from child identity to parent identity, and an ordered
child list per parent.  The `Tree` struct itself is not under src/. -/
structure TreeState where
  parents : List (NodeId × NodeId)
  childrenMap : List (NodeId × List NodeId)
deriving DecidableEq

/-- Modelled from the spec: `Tree::get_parent` (§4.2) — pure lookup of the
parent identity; `get_parent(Root)` returns no parent. -/
def get_parent (t : TreeState) (n : NodeId) : Option NodeId :=
  if n = NodeId.Root then none else assocLookup t.parents n

/-- Modelled from the spec: `Tree::get_children` (§4.2) — the live ordered
child sequence of a node, empty when none is recorded. -/
def get_children (t : TreeState) (n : NodeId) : List NodeId :=
  match assocLookup t.childrenMap n with
  | some cs => cs
  | none => []

/-- Insert an element at a position in a list (appending when the position
is at or past the end); the ordered-list insert primitive of §6. -/
def insertAt : List NodeId → Nat → NodeId → List NodeId
  | l, 0, x => x :: l
  | [], _ + 1, x => [x]
  | y :: l, n + 1, x => y :: insertAt l n x

/-- Modelled from the spec: the ancestor walk used by the structural-validity
check of §4.2 — "walking ancestors of the destination starting at
`new_parent` up to `Root`".  Fuel bounds the walk. -/
def destAncestorChain (t : TreeState) : Nat → NodeId → List NodeId
  | 0, n => [n]
  | fuel + 1, n =>
      n :: (match get_parent t n with
            | none => []
            | some p => destAncestorChain t fuel p)

/-- Modelled from the spec: the removal half of `update_node` (§4.2) —
"removes `id` from its current parent's child sequence (no-op if not yet
present, i.e. during creation)". -/
def detachFromParent (t : TreeState) (id : NodeId) : TreeState :=
  match get_parent t id with
  | none => t
  | some p =>
      { t with childrenMap :=
          assocSet t.childrenMap p ((get_children t p).filter (fun c => c != id)) }

/-- Modelled from the spec: `Tree::update_node` (§4.2), the single
re-parenting primitive — reject the reserved root literal as the moved
identity, reject a destination whose ancestor walk contains `id` (cycle
check), then remove `id` from its current parent's child sequence and insert
it into `new_parent`'s sequence at `index` (or at the end), failing when the
index exceeds the sequence length. -/
def update_node (t : TreeState) (id new_parent : NodeId) (index : Option Nat) :
    Except TreeError TreeState :=
  if id = NodeId.Root then
    .error (TreeError.InvalidId "<ROOT> cannot be used as a node ID")
  else if id ∈ destAncestorChain t t.parents.length new_parent then
    .error (TreeError.Cycle id new_parent)
  else
    let t1 := detachFromParent t id
    let sibs := get_children t1 new_parent
    let i := match index with
             | some i => i
             | none => sibs.length
    if sibs.length < i then
      .error (TreeError.IndexOutOfRange i sibs.length)
    else
      .ok { parents := assocSet t1.parents id new_parent,
            childrenMap := assocSet t1.childrenMap new_parent (insertAt sibs i id) }

/-- One recorded invocation of `Tree::update_node`, with its arguments.  Used
to make visible, per handle-layer operation, exactly which mutation calls
reach the tree. -/
structure UpdateCall where
  id : NodeId
  newParent : NodeId
  index : Option Nat
deriving DecidableEq

/-- The observable outcome of a handle-layer move: a typed error returned
before or by `update_node`, a new tree state, or a panic (the source
`unwrap()` calls in `move_relative`). -/
inductive MoveOutcome where
  | err : TreeError → MoveOutcome
  | ok : TreeState → MoveOutcome
  | panicked : MoveOutcome
deriving DecidableEq

/-- Lift the result of `update_node` into a `MoveOutcome`. -/
def toOutcome : Except TreeError TreeState → MoveOutcome
  | .ok t => MoveOutcome.ok t
  | .error e => MoveOutcome.err e

/-- Embeds `Node::parent` (src/src/node.rs lines 381-385): the parent
identity, when the tree records one. -/
def nodeParent (t : TreeState) (n : NodeId) : Option NodeId :=
  get_parent t n

/-- Embeds `Node::siblings` (src/src/node.rs lines 399-405): the parent's
full child list, or empty when the node has no parent. -/
def siblings (t : TreeState) (n : NodeId) : List NodeId :=
  match nodeParent t n with
  | some p => get_children t p
  | none => []

/-- Embeds `Node::move_relative` (src/src/node.rs lines 236-257): reject a
self target with `Cycle`, then a `Root` target with `InvalidTarget`;
otherwise unwrap the target's parent, find the target's index among its
siblings, and call `update_node` at that index plus the offset.  The second
component records the `update_node` calls made. -/
def move_relative (t : TreeState) (selfId otherId : NodeId) (offset : Nat) :
    MoveOutcome × List UpdateCall :=
  if otherId = selfId then
    (MoveOutcome.err (TreeError.Cycle selfId otherId), [])
  else if otherId = NodeId.Root then
    (MoveOutcome.err (TreeError.InvalidTarget NodeId.Root), [])
  else
    match nodeParent t otherId with
    | none => (MoveOutcome.panicked, [])
    | some newParent =>
        match List.findIdx? (fun s => s == otherId) (siblings t otherId) with
        | none => (MoveOutcome.panicked, [])
        | some curIdx =>
            let newIndex := curIdx + offset
            (toOutcome (update_node t selfId newParent (some newIndex)),
             [⟨selfId, newParent, some newIndex⟩])

/-- Embeds `Node::move_before` (src/src/node.rs lines 433-435). -/
def move_before (t : TreeState) (selfId otherId : NodeId) :
    MoveOutcome × List UpdateCall :=
  move_relative t selfId otherId 0

/-- Embeds `Node::move_after` (src/src/node.rs lines 437-439). -/
def move_after (t : TreeState) (selfId otherId : NodeId) :
    MoveOutcome × List UpdateCall :=
  move_relative t selfId otherId 1

/-- Embeds `Node::move_to` (src/src/node.rs lines 429-431): a direct
forwarding call to `Tree::update_node` with the node's id, the new parent's
id and the given index.  The second component records the call. -/
def move_to (t : TreeState) (selfId parentId : NodeId) (index : Option Nat) :
    MoveOutcome × List UpdateCall :=
  (toOutcome (update_node t selfId parentId index), [⟨selfId, parentId, index⟩])

/-- Embeds `Node::do_create_child` (src/src/node.rs lines 219-234): a
converted identifier equal to `Root` is rejected with `InvalidId` before
any tree call; otherwise `update_node(id, self.id, index)` runs and the new
child's identity is returned.  The second component records the
`update_node` calls made. -/
def do_create_child (t : TreeState) (selfId id : NodeId) (index : Option Nat) :
    Except TreeError (NodeId × TreeState) × List UpdateCall :=
  if id = NodeId.Root then
    (.error (TreeError.InvalidId "<ROOT> cannot be used as a node ID"), [])
  else
    match update_node t id selfId index with
    | .ok t1 => (.ok (id, t1), [⟨id, selfId, index⟩])
    | .error e => (.error e, [⟨id, selfId, index⟩])

/-- Embeds `Node::create_child_with_id` (src/src/node.rs lines 356-358). -/
def create_child_with_id (t : TreeState) (selfId : NodeId) (s : String) :
    Except TreeError (NodeId × TreeState) × List UpdateCall :=
  do_create_child t selfId (NodeId.fromStr s) none

/-- Embeds `Node::create_child_with_id_at` (src/src/node.rs lines 360-366). -/
def create_child_with_id_at (t : TreeState) (selfId : NodeId) (s : String)
    (index : Nat) : Except TreeError (NodeId × TreeState) × List UpdateCall :=
  do_create_child t selfId (NodeId.fromStr s) (some index)

/-- Embeds the accumulator loop of `Node::depth` (src/src/node.rs lines
416-426): walk `get_parent` from the current optional identity, stopping at
`Root` or at a missing parent, adding one per hop.  Fuel bounds the walk,
matching the source loop on every parent chain the loop terminates on. -/
def depthGo (t : TreeState) : Nat → Option NodeId → Nat → Nat
  | 0, _, d => d
  | _ + 1, none, d => d
  | fuel + 1, some p, d =>
      if p = NodeId.Root then d else depthGo t fuel (get_parent t p) (d + 1)

/-- Embeds `Node::depth` (src/src/node.rs lines 411-427): `0` for `Root`,
otherwise one plus the number of parent-hops taken by the loop. -/
def depth (t : TreeState) (fuel : Nat) (n : NodeId) : Nat :=
  if n = NodeId.Root then 0 else depthGo t fuel (get_parent t n) 1

/-- Embeds the loop of `Node::ancestors` (src/src/node.rs lines 388-396):
push each parent reached, then continue from that parent.  Fuel bounds the
walk, matching the source loop on every chain the loop terminates on. -/
def ancestorsGo (t : TreeState) : Nat → Option NodeId → List NodeId
  | 0, _ => []
  | _ + 1, none => []
  | fuel + 1, some p => p :: ancestorsGo t fuel (get_parent t p)

/-- Embeds `Node::ancestors` (src/src/node.rs lines 387-397): the parent
walk starting at the node's parent, nearest-first. -/
def ancestors (t : TreeState) (fuel : Nat) (n : NodeId) : List NodeId :=
  ancestorsGo t fuel (get_parent t n)

/-- Modelled from the spec: the selectable traversal orders of the tree
iterator (§4.4) — pre-order depth-first at minimum, breadth-first as the
other order behind the same contract. -/
inductive TraversalOrder where
  | DepthFirst
  | BreadthFirst
deriving DecidableEq

/-- Modelled from the spec: the pre-order depth-first visit sequence of the
iterator (§4.4), rooted at a node; fuel bounds the descent depth. -/
def preorderGo (t : TreeState) : Nat → NodeId → List NodeId
  | 0, n => [n]
  | fuel + 1, n => n :: (get_children t n).flatMap (fun c => preorderGo t fuel c)

/-- Modelled from the spec: the breadth-first visit sequence of the iterator
(§4.4), driven by a queue; fuel bounds the number of dequeues. -/
def bfsGo (t : TreeState) : Nat → List NodeId → List NodeId
  | 0, q => q
  | _ + 1, [] => []
  | fuel + 1, n :: rest => n :: bfsGo t fuel (rest ++ get_children t n)

/-- Modelled from the spec: `Tree::traverse_starting_at` (§4.2, §4.4) — the
finite visit sequence of the subtree rooted at `n` in the given order. -/
def traverse_starting_at (t : TreeState) (fuel : Nat) (n : NodeId) :
    TraversalOrder → List NodeId
  | TraversalOrder.DepthFirst => preorderGo t fuel n
  | TraversalOrder.BreadthFirst => bfsGo t fuel [n]

/-- Embeds `Node::traverse` (src/src/node.rs lines 407-409). -/
def traverse (t : TreeState) (fuel : Nat) (n : NodeId) (o : TraversalOrder) :
    List NodeId :=
  traverse_starting_at t fuel n o

/-- Embeds `Node::descendants` (src/src/node.rs lines 376-379):
`self.traverse(order).skip(1).collect()`. -/
def descendants (t : TreeState) (fuel : Nat) (n : NodeId) (o : TraversalOrder) :
    List NodeId :=
  (traverse t fuel n o).drop 1

/-- Shorthand for the concrete identities of the spec's worked example. -/
def idA : NodeId := NodeId.Id "A"

/-- Identity B of the worked example. -/
def idB : NodeId := NodeId.Id "B"

/-- Identity C of the worked example. -/
def idC : NodeId := NodeId.Id "C"

/-- Identity D of the worked example. -/
def idD : NodeId := NodeId.Id "D"

/-- Identity E of the worked example. -/
def idE : NodeId := NodeId.Id "E"

/-- The worked example tree of the spec (§8): `Root → {A, B}`,
`A → {C, D, E}`. -/
def exampleTree : TreeState :=
  { parents := [(idA, NodeId.Root), (idB, NodeId.Root),
                (idC, idA), (idD, idA), (idE, idA)],
    childrenMap := [(NodeId.Root, [idA, idB]), (idA, [idC, idD, idE])] }

/-- A one-node tree: `Root → {a}`. -/
def oneNodeTree : TreeState :=
  { parents := [(NodeId.Id "a", NodeId.Root)],
    childrenMap := [(NodeId.Root, [NodeId.Id "a"])] }

/-- Project the new tree state out of a successful move outcome. -/
def okState : MoveOutcome → Option TreeState
  | MoveOutcome.ok t => some t
  | _ => none

/-- Decidable parent/child consistency (spec invariants 2 and 3): every
recorded parent entry lists the child in that parent's child sequence, and
no entry names `Root` as a child. -/
def consistentB (t : TreeState) : Bool :=
  t.parents.all (fun pr =>
    decide (pr.1 ≠ NodeId.Root) && (get_children t pr.2).contains pr.1)

/-- Decidable acyclicity certificate (spec invariant 4): a rank function
strictly increasing along every recorded child edge. -/
def rankOkB (t : TreeState) (rank : NodeId → Nat) : Bool :=
  t.childrenMap.all (fun pr => pr.2.all (fun c => decide (rank pr.1 < rank c)))

/-- A rank function witnessing acyclicity of `exampleTree`. -/
def exRank : NodeId → Nat
  | NodeId.Root => 0
  | NodeId.Id "A" => 1
  | NodeId.Id "B" => 1
  | _ => 2

/-- **C1.** For every valid `NodeId` (every value other than `Id "<ROOT>"`,
which the reserved-literal rule makes unconstructible), `From<&str>` and
`Display` compose to the identity: parsing the rendering of `x` yields `x`;
the reserved literal parses to `Root`, any other string `s` parses to
`Id s`, `Root` renders to the reserved literal and `Id s` renders to `s`. -/
theorem nodeid_roundtrip (x : NodeId) (s : String)
    (hx : x ≠ NodeId.Id "<ROOT>") (hs : s ≠ "<ROOT>") :
    NodeId.fromStr (NodeId.render x) = x ∧
    NodeId.fromStr "<ROOT>" = NodeId.Root ∧
    NodeId.fromStr s = NodeId.Id s ∧
    NodeId.render NodeId.Root = "<ROOT>" ∧
    NodeId.render (NodeId.Id s) = s := by
  refine ⟨?_, by simp [NodeId.fromStr], by simp [NodeId.fromStr, hs], rfl, rfl⟩
  cases x with
  | Root => simp [NodeId.render, NodeId.fromStr]
  | Id s1 =>
      have hs1 : s1 ≠ "<ROOT>" := fun h => hx (by rw [h])
      simp [NodeId.render, NodeId.fromStr, hs1]

/-- Witness for C1 at the concrete identifier string `"a"`. -/
theorem nodeid_roundtrip_witness :
    NodeId.fromStr (NodeId.render (NodeId.Id "a")) = NodeId.Id "a" ∧
    NodeId.fromStr "<ROOT>" = NodeId.Root ∧
    NodeId.fromStr "a" = NodeId.Id "a" ∧
    NodeId.render NodeId.Root = "<ROOT>" ∧
    NodeId.render (NodeId.Id "a") = "a" :=
  nodeid_roundtrip (NodeId.Id "a") "a" (by decide) (by decide)

theorem assocLookup_mem {α : Type} (l : List (NodeId × α)) (k : NodeId) (v : α)
    (h : assocLookup l k = some v) : (k, v) ∈ l := by
  induction l with
  | nil => simp [assocLookup] at h
  | cons hd tl ih =>
      cases hd with
      | mk k1 v1 =>
          by_cases hk : k1 = k
          · subst hk
            simp [assocLookup] at h
            subst h
            exact List.mem_cons_self _ _
          · simp [assocLookup, hk] at h
            exact List.mem_cons_of_mem _ (ih h)

/-- **C2.** Creating a child whose supplied identifier converts to the
reserved root literal fails with `InvalidId`, and no `update_node` call
reaches the tree, for both `create_child_with_id` and
`create_child_with_id_at`, at every tree state, handle and index. -/
theorem create_child_root_id_rejected (t : TreeState) (selfId : NodeId)
    (index : Nat) (s : String) (hs : NodeId.fromStr s = NodeId.Root) :
    create_child_with_id t selfId s =
      (.error (TreeError.InvalidId "<ROOT> cannot be used as a node ID"), []) ∧
    create_child_with_id_at t selfId s index =
      (.error (TreeError.InvalidId "<ROOT> cannot be used as a node ID"), []) := by
  constructor <;>
    simp [create_child_with_id, create_child_with_id_at, do_create_child, hs]

/-- Witness for C2: the literal `"<ROOT>"` on a concrete tree. -/
theorem create_child_root_id_rejected_witness :
    create_child_with_id oneNodeTree (NodeId.Id "a") "<ROOT>" =
      (.error (TreeError.InvalidId "<ROOT> cannot be used as a node ID"), []) ∧
    create_child_with_id_at oneNodeTree (NodeId.Id "a") "<ROOT>" 0 =
      (.error (TreeError.InvalidId "<ROOT> cannot be used as a node ID"), []) :=
  create_child_root_id_rejected oneNodeTree (NodeId.Id "a") 0 "<ROOT>" (by decide)

/-- **C3.** `move_before` and `move_after` fail with `Cycle` on a self
target and with `InvalidTarget` on a `Root` target; when the target is both
(the node is `Root` itself), the self check fires first and `Cycle` is
returned.  In every failing case the recorded `update_node` call list is
empty. -/
theorem move_relative_self_root_validation (t : TreeState)
    (selfId otherId : NodeId) :
    (otherId = selfId →
      move_before t selfId otherId =
        (MoveOutcome.err (TreeError.Cycle selfId otherId), []) ∧
      move_after t selfId otherId =
        (MoveOutcome.err (TreeError.Cycle selfId otherId), [])) ∧
    (otherId ≠ selfId → otherId = NodeId.Root →
      move_before t selfId otherId =
        (MoveOutcome.err (TreeError.InvalidTarget NodeId.Root), []) ∧
      move_after t selfId otherId =
        (MoveOutcome.err (TreeError.InvalidTarget NodeId.Root), [])) ∧
    (otherId = selfId → otherId = NodeId.Root →
      move_before t selfId otherId =
        (MoveOutcome.err (TreeError.Cycle selfId otherId), []) ∧
      move_after t selfId otherId =
        (MoveOutcome.err (TreeError.Cycle selfId otherId), [])) := by
  refine ⟨?_, ?_, ?_⟩
  · intro h
    constructor <;> simp [move_before, move_after, move_relative, h]
  · intro h1 h2
    subst h2
    constructor <;> simp [move_before, move_after, move_relative, h1]
  · intro h _
    constructor <;> simp [move_before, move_after, move_relative, h]

/-- Witness for C3 at concrete handles: a self target, a root target, and
the root node moved relative to itself. -/
theorem move_relative_self_root_validation_witness :
    move_before oneNodeTree (NodeId.Id "a") (NodeId.Id "a") =
      (MoveOutcome.err (TreeError.Cycle (NodeId.Id "a") (NodeId.Id "a")), []) ∧
    move_before oneNodeTree (NodeId.Id "a") NodeId.Root =
      (MoveOutcome.err (TreeError.InvalidTarget NodeId.Root), []) ∧
    move_after oneNodeTree NodeId.Root NodeId.Root =
      (MoveOutcome.err (TreeError.Cycle NodeId.Root NodeId.Root), []) :=
  ⟨((move_relative_self_root_validation oneNodeTree (NodeId.Id "a")
      (NodeId.Id "a")).1 rfl).1,
   ((move_relative_self_root_validation oneNodeTree (NodeId.Id "a")
      NodeId.Root).2.1 (by decide) rfl).1,
   ((move_relative_self_root_validation oneNodeTree NodeId.Root
      NodeId.Root).2.2 rfl rfl).2⟩

theorem depthGo_acc (t : TreeState) :
    ∀ (fuel : Nat) (c : Option NodeId) (d : Nat),
      depthGo t fuel c (d + 1) = depthGo t fuel c d + 1 := by
  intro fuel
  induction fuel with
  | zero => intro c d; rfl
  | succ fuel ih =>
      intro c d
      cases c with
      | none => rfl
      | some p =>
          by_cases hp : p = NodeId.Root
          · simp [depthGo, hp]
          · simp [depthGo, hp, ih]

/-- **C5.** `depth(Root) = 0`, and for every node with a recorded parent,
`depth(n) = 1 + depth(parent(n))` — the loop of `Node::depth` satisfies the
spec recurrence at matching fuel bounds. -/
theorem depth_root_and_recurrence (t : TreeState) (n p : NodeId) (fuel : Nat)
    (h : get_parent t n = some p) :
    depth t fuel NodeId.Root = 0 ∧
    depth t (fuel + 1) n = 1 + depth t fuel p := by
  have hnr : n ≠ NodeId.Root := by
    intro hn
    rw [hn] at h
    simp [get_parent] at h
  refine ⟨by simp [depth], ?_⟩
  by_cases hp : p = NodeId.Root
  · subst hp
    simp [depth, hnr, h, depthGo]
  · have lhs : depth t (fuel + 1) n = depthGo t fuel (get_parent t p) 2 := by
      simp [depth, hnr, h, depthGo, hp]
    have rhs : depth t fuel p = depthGo t fuel (get_parent t p) 1 := by
      simp [depth, hp]
    have hacc := depthGo_acc t fuel (get_parent t p) 1
    norm_num at hacc
    rw [lhs, rhs]
    omega

/-- Witness for C5 on the worked example tree at node C (parent A). -/
theorem depth_root_and_recurrence_witness :
    depth exampleTree 3 NodeId.Root = 0 ∧
    depth exampleTree 4 idC = 1 + depth exampleTree 3 idA :=
  depth_root_and_recurrence exampleTree idC idA 3 (by decide)

theorem ancestorsGo_none (t : TreeState) (fuel : Nat) :
    ancestorsGo t fuel none = [] := by
  cases fuel <;> rfl

/-- **C7 counterexample.** On the concrete tree `Root → {a}`, the node `a`'s
ancestor list is `[Root]`: contrary to the claim, `Root` itself IS included
in the walk (the loop pushes the parent `Root` before finding that `Root`
has no parent). -/
theorem ancestors_includes_root_counterexample :
    ancestors oneNodeTree 5 (NodeId.Id "a") = [NodeId.Root] ∧
    NodeId.Root ∈ ancestors oneNodeTree 5 (NodeId.Id "a") := by
  constructor <;> decide

/-- **C7 amended.** `ancestors(n)` walks `parent()` repeatedly from `n`'s
parent, nearest-first, stopping when no parent is recorded; for a node whose
walk reaches `Root` the sequence ends at `Root` itself, which IS included as
the last element, and `ancestors(Root)` is empty. -/
theorem ancestors_parent_walk (t : TreeState) (n p : NodeId) (fuel : Nat) :
    ancestors t fuel NodeId.Root = [] ∧
    (get_parent t n = some p →
      ancestors t (fuel + 1) n = p :: ancestors t fuel p) ∧
    (get_parent t n = some NodeId.Root →
      ancestors t (fuel + 1) n = [NodeId.Root]) ∧
    (get_parent t n = none → ancestors t fuel n = []) := by
  refine ⟨?_, ?_, ?_, ?_⟩
  · simp [ancestors, get_parent, ancestorsGo_none]
  · intro h
    simp [ancestors, h, ancestorsGo]
  · intro h
    simp only [ancestors, h]
    simp [ancestorsGo, get_parent, ancestorsGo_none]
  · intro h
    simp [ancestors, h, ancestorsGo_none]

/-- Witness for C7 amended: the walk on `Root → {a}` from `a`, from `Root`,
and from an identity with no recorded parent. -/
theorem ancestors_parent_walk_witness :
    ancestors oneNodeTree 2 NodeId.Root = [] ∧
    ancestors oneNodeTree 3 (NodeId.Id "a") =
      NodeId.Root :: ancestors oneNodeTree 2 NodeId.Root ∧
    ancestors oneNodeTree 3 (NodeId.Id "a") = [NodeId.Root] ∧
    ancestors oneNodeTree 2 (NodeId.Id "zz") = [] :=
  ⟨(ancestors_parent_walk oneNodeTree (NodeId.Id "a") NodeId.Root 2).1,
   (ancestors_parent_walk oneNodeTree (NodeId.Id "a") NodeId.Root 2).2.1
     (by decide),
   (ancestors_parent_walk oneNodeTree (NodeId.Id "a") NodeId.Root 2).2.2.1
     (by decide),
   (ancestors_parent_walk oneNodeTree (NodeId.Id "zz") NodeId.Root 2).2.2.2
     (by decide)⟩

/-- **C4.** For a non-root, non-self target with recorded parent `p` and
first sibling index `i`, `move_before` issues exactly the call
`update_node(self, p, Some i)` and `move_after` exactly
`update_node(self, p, Some (i+1))`, and each returns that call's outcome. -/
theorem move_relative_target_index (t : TreeState) (selfId otherId p : NodeId)
    (i : Nat) (hs : otherId ≠ selfId) (hr : otherId ≠ NodeId.Root)
    (hp : get_parent t otherId = some p)
    (hi : List.findIdx? (fun s => s == otherId) (get_children t p) = some i) :
    move_before t selfId otherId =
      (toOutcome (update_node t selfId p (some i)),
       [⟨selfId, p, some i⟩]) ∧
    move_after t selfId otherId =
      (toOutcome (update_node t selfId p (some (i + 1))),
       [⟨selfId, p, some (i + 1)⟩]) := by
  have hsib : siblings t otherId = get_children t p := by
    simp [siblings, nodeParent, hp]
  constructor <;>
    simp [move_before, move_after, move_relative, nodeParent, hp, hsib, hs,
      hr, hi]

/-- Witness for C4 on the worked example: target E has parent A and sibling
index 2. -/
theorem move_relative_target_index_witness :
    move_before exampleTree idB idE =
      (toOutcome (update_node exampleTree idB idA (some 2)),
       [⟨idB, idA, some 2⟩]) ∧
    move_after exampleTree idB idE =
      (toOutcome (update_node exampleTree idB idA (some 3)),
       [⟨idB, idA, some 3⟩]) :=
  move_relative_target_index exampleTree idB idE idA 2 (by decide) (by decide)
    (by decide) (by decide)

/-- **C8.** On the worked example tree `Root → {A, B}`, `A → {C, D, E}`:
`move_to(B, A, Some 1)` succeeds with `A`'s children `[C, B, D, E]` and
`B`'s parent `A`; `move_before(B, E)` succeeds with `A`'s children
`[C, D, B, E]`. -/
theorem move_example_children :
    (okState (move_to exampleTree idB idA (some 1)).1).map
        (fun t2 => get_children t2 idA) = some [idC, idB, idD, idE] ∧
    (okState (move_to exampleTree idB idA (some 1)).1).map
        (fun t2 => get_parent t2 idB) = some (some idA) ∧
    (okState (move_before exampleTree idB idE).1).map
        (fun t3 => get_children t3 idA) = some [idC, idD, idB, idE] := by
  refine ⟨?_, ?_, ?_⟩ <;> decide

/-- **C9.** `siblings(n)` is the full ordered child list of `n`'s parent —
so on a parent/child-consistent tree it contains `n` itself — and is empty
when `n` has no recorded parent. -/
theorem siblings_spec (t : TreeState) (n p : NodeId)
    (hw : consistentB t = true) :
    (get_parent t n = some p →
      siblings t n = get_children t p ∧ n ∈ siblings t n) ∧
    (get_parent t n = none → siblings t n = []) := by
  constructor
  · intro hp
    have hsib : siblings t n = get_children t p := by
      simp [siblings, nodeParent, hp]
    refine ⟨hsib, ?_⟩
    rw [hsib]
    have hnr : n ≠ NodeId.Root := by
      intro hn
      rw [hn] at hp
      simp [get_parent] at hp
    have hlook : assocLookup t.parents n = some p := by
      simpa [get_parent, hnr] using hp
    have hmem : (n, p) ∈ t.parents := assocLookup_mem _ _ _ hlook
    have hall := List.all_eq_true.mp hw _ hmem
    simp only [Bool.and_eq_true, decide_eq_true_eq] at hall
    exact List.mem_of_elem_eq_true hall.2
  · intro hp
    simp [siblings, nodeParent, hp]

/-- Witness for C9 on the tree `Root → {a}`: node `a` and the parentless
root. -/
theorem siblings_spec_witness :
    (siblings oneNodeTree (NodeId.Id "a") = get_children oneNodeTree NodeId.Root ∧
     NodeId.Id "a" ∈ siblings oneNodeTree (NodeId.Id "a")) ∧
    siblings oneNodeTree NodeId.Root = [] :=
  ⟨(siblings_spec oneNodeTree (NodeId.Id "a") NodeId.Root (by decide)).1
     (by decide),
   (siblings_spec oneNodeTree NodeId.Root NodeId.Root (by decide)).2
     (by decide)⟩

theorem mem_destAncestorChain_self (t : TreeState) (fuel : Nat) (n : NodeId) :
    n ∈ destAncestorChain t fuel n := by
  cases fuel <;> simp [destAncestorChain]

/-- **C10.** `move_to` performs no handle-layer validation: its recorded
call list is always exactly the one forwarded `update_node(self, parent,
index)` call — even for a self or root destination — its outcome is that
call's outcome, a self destination is rejected only by `update_node`'s own
cycle check, and (by contrast) `move_before`/`move_after` issue no call at
all in that case. -/
theorem move_to_forwards (t : TreeState) (selfId parentId : NodeId)
    (index : Option Nat) :
    (move_to t selfId parentId index).2 = [⟨selfId, parentId, index⟩] ∧
    (move_to t selfId parentId index).1 =
      toOutcome (update_node t selfId parentId index) ∧
    (parentId = selfId → selfId ≠ NodeId.Root →
      (move_to t selfId parentId index).1 =
        MoveOutcome.err (TreeError.Cycle selfId parentId)) ∧
    (parentId = selfId →
      (move_before t selfId parentId).2 = [] ∧
      (move_after t selfId parentId).2 = []) := by
  refine ⟨rfl, rfl, ?_, ?_⟩
  · intro hps hnr
    subst hps
    simp [move_to, update_node, hnr, mem_destAncestorChain_self, toOutcome]
  · intro hps
    subst hps
    constructor <;> simp [move_before, move_after, move_relative]

/-- Witness for C10: a concrete self-destination `move_to`, forwarded and
rejected only by `update_node`, while `move_before`/`move_after` issue no
call. -/
theorem move_to_forwards_witness :
    (move_to oneNodeTree (NodeId.Id "a") (NodeId.Id "a") none).2 =
      [⟨NodeId.Id "a", NodeId.Id "a", none⟩] ∧
    (move_to oneNodeTree (NodeId.Id "a") (NodeId.Id "a") none).1 =
      toOutcome (update_node oneNodeTree (NodeId.Id "a") (NodeId.Id "a") none) ∧
    (move_to oneNodeTree (NodeId.Id "a") (NodeId.Id "a") none).1 =
      MoveOutcome.err (TreeError.Cycle (NodeId.Id "a") (NodeId.Id "a")) ∧
    (move_before oneNodeTree (NodeId.Id "a") (NodeId.Id "a")).2 = [] ∧
    (move_after oneNodeTree (NodeId.Id "a") (NodeId.Id "a")).2 = [] :=
  ⟨(move_to_forwards oneNodeTree (NodeId.Id "a") (NodeId.Id "a") none).1,
   (move_to_forwards oneNodeTree (NodeId.Id "a") (NodeId.Id "a") none).2.1,
   (move_to_forwards oneNodeTree (NodeId.Id "a") (NodeId.Id "a") none).2.2.1
     rfl (by decide),
   (move_to_forwards oneNodeTree (NodeId.Id "a") (NodeId.Id "a") none).2.2.2
     rfl⟩

theorem rank_lt_of_mem_children (t : TreeState) (rank : NodeId → Nat)
    (hw : rankOkB t rank = true) (p c : NodeId) (hc : c ∈ get_children t p) :
    rank p < rank c := by
  rcases hcs : assocLookup t.childrenMap p with _ | cs
  · simp [get_children, hcs] at hc
  · rw [get_children, hcs] at hc
    have hmem : (p, cs) ∈ t.childrenMap := assocLookup_mem _ _ _ hcs
    have hall := List.all_eq_true.mp hw _ hmem
    have h2 := List.all_eq_true.mp hall c hc
    simpa using h2

theorem preorder_rank_le (t : TreeState) (rank : NodeId → Nat)
    (hw : rankOkB t rank = true) :
    ∀ (fuel : Nat) (c x : NodeId), x ∈ preorderGo t fuel c →
      rank c ≤ rank x := by
  intro fuel
  induction fuel with
  | zero =>
      intro c x hx
      simp [preorderGo] at hx
      rw [hx]
  | succ fuel ih =>
      intro c x hx
      simp [preorderGo] at hx
      rcases hx with rfl | ⟨c1, hc1, hx1⟩
      · exact le_refl _
      · exact le_of_lt (lt_of_lt_of_le
          (rank_lt_of_mem_children t rank hw c c1 hc1) (ih c1 x hx1))

theorem bfs_rank_exists (t : TreeState) (rank : NodeId → Nat)
    (hw : rankOkB t rank = true) :
    ∀ (fuel : Nat) (q : List NodeId) (x : NodeId), x ∈ bfsGo t fuel q →
      ∃ y ∈ q, rank y ≤ rank x := by
  intro fuel
  induction fuel with
  | zero =>
      intro q x hx
      exact ⟨x, by simpa [bfsGo] using hx, le_refl _⟩
  | succ fuel ih =>
      intro q x hx
      cases q with
      | nil => simp [bfsGo] at hx
      | cons n rest =>
          simp only [bfsGo, List.mem_cons] at hx
          rcases hx with rfl | hx1
          · exact ⟨x, List.mem_cons_self _ _, le_refl _⟩
          · rcases ih _ x hx1 with ⟨y, hy, hle⟩
            rcases List.mem_append.mp hy with hy1 | hy2
            · exact ⟨y, List.mem_cons_of_mem _ hy1, hle⟩
            · exact ⟨n, List.mem_cons_self _ _, le_of_lt (lt_of_lt_of_le
                (rank_lt_of_mem_children t rank hw n y hy2) hle)⟩

/-- **C6.** For every node and traversal order, `descendants` equals
`traverse` with its first element removed, and — on any tree admitting a
rank function strictly increasing along child edges (acyclicity) — the node
itself never appears in its own descendants list. -/
theorem descendants_eq_traverse_tail (t : TreeState) (fuel : Nat)
    (n : NodeId) (o : TraversalOrder) (rank : NodeId → Nat)
    (hw : rankOkB t rank = true) :
    descendants t fuel n o = (traverse t fuel n o).drop 1 ∧
    n ∉ descendants t fuel n o := by
  refine ⟨rfl, ?_⟩
  cases o with
  | DepthFirst =>
      cases fuel with
      | zero =>
          simp [descendants, traverse, traverse_starting_at, preorderGo]
      | succ fuel =>
          intro hmem
          simp only [descendants, traverse, traverse_starting_at, preorderGo,
            List.drop_succ_cons, List.drop_zero, List.mem_flatMap] at hmem
          rcases hmem with ⟨c, hc, hn⟩
          have h1 := rank_lt_of_mem_children t rank hw n c hc
          have h2 := preorder_rank_le t rank hw fuel c n hn
          omega
  | BreadthFirst =>
      cases fuel with
      | zero =>
          simp [descendants, traverse, traverse_starting_at, bfsGo]
      | succ fuel =>
          intro hmem
          simp only [descendants, traverse, traverse_starting_at, bfsGo,
            List.drop_succ_cons, List.drop_zero, List.nil_append] at hmem
          rcases bfs_rank_exists t rank hw fuel _ n hmem with ⟨y, hy, hle⟩
          have h1 := rank_lt_of_mem_children t rank hw n y hy
          omega

/-- Witness for C6 on the worked example tree at node A, in both traversal
orders, with an explicit rank certificate. -/
theorem descendants_eq_traverse_tail_witness :
    (descendants exampleTree 4 idA TraversalOrder.DepthFirst =
      (traverse exampleTree 4 idA TraversalOrder.DepthFirst).drop 1 ∧
     idA ∉ descendants exampleTree 4 idA TraversalOrder.DepthFirst) ∧
    (descendants exampleTree 4 idA TraversalOrder.BreadthFirst =
      (traverse exampleTree 4 idA TraversalOrder.BreadthFirst).drop 1 ∧
     idA ∉ descendants exampleTree 4 idA TraversalOrder.BreadthFirst) :=
  ⟨descendants_eq_traverse_tail exampleTree 4 idA TraversalOrder.DepthFirst
     exRank (by decide),
   descendants_eq_traverse_tail exampleTree 4 idA TraversalOrder.BreadthFirst
     exRank (by decide)⟩

end YrsTree
